import Mathlib

/-!
Shallow embedding of the kubemerge core (src/config.rs and src/merge.rs).

A kubeconfig document is a record of named clusters, contexts and users,
a current-context string, and a preferences mapping.  The merge engine
folds an ordered list of files (a blank file is modelled as `none`) into
one accumulated state, then builds the merged document and validates it.

YAML scalar values attached to unrecognized fields and preferences are
modelled by a small inductive `YamlValue`; mappings (the Rust HashMaps)
are modelled as association lists, with HashMap key-uniqueness expressed
as `Nodup` hypotheses where a proof needs it.
-/

namespace Kubemerge

/-- Model of serde_yml::Value: the dynamically typed YAML scalars that can
appear in passthrough fields and preferences. -/
inductive YamlValue where
  | null : YamlValue
  | bool : Bool → YamlValue
  | int : Int → YamlValue
  | str : String → YamlValue
  deriving DecidableEq, Repr

/-- Cluster payload (src/config.rs, struct Cluster). The `other` field is the
serde-flattened catch-all map of unrecognized fields. -/
structure Cluster where
  certificate_authority_data : Option String
  certificate_authority : Option String
  server : String
  insecure_skip_tls_verify : Option Bool
  other : List (String × YamlValue)
  deriving DecidableEq, Repr

/-- src/config.rs, struct NamedCluster. -/
structure NamedCluster where
  name : String
  cluster : Cluster
  deriving DecidableEq, Repr

/-- Context payload (src/config.rs, struct Context). `nmspace` renders the
source field `namespace`, which is a reserved word here. -/
structure Context where
  cluster : String
  user : String
  nmspace : Option String
  other : List (String × YamlValue)
  deriving DecidableEq, Repr

/-- src/config.rs, struct NamedContext. -/
structure NamedContext where
  name : String
  context : Context
  deriving DecidableEq, Repr

/-- User payload (src/config.rs, struct User). -/
structure User where
  client_certificate_data : Option String
  client_key_data : Option String
  client_certificate : Option String
  client_key : Option String
  token : Option String
  username : Option String
  password : Option String
  other : List (String × YamlValue)
  deriving DecidableEq, Repr

/-- src/config.rs, struct NamedUser. -/
structure NamedUser where
  name : String
  user : User
  deriving DecidableEq, Repr

/-- src/config.rs, struct KubeConfig: one parsed document, and also the type
of the merged document. -/
structure KubeConfig where
  api_version : String
  kind : String
  clusters : Option (List NamedCluster)
  contexts : Option (List NamedContext)
  users : Option (List NamedUser)
  current_context : String
  preferences : List (String × YamlValue)
  deriving DecidableEq, Repr

/-- The two fatal error shapes of src/merge.rs: the processed-files guard in
merge_kubeconfigs and the current-context check in validate_config. -/
inductive MergeFailure where
  | no_valid_files : MergeFailure
  | current_context_not_found : String → MergeFailure
  deriving DecidableEq, Repr

/-- The two warning shapes logged by validate_config (src/merge.rs):
a context referencing a missing cluster, or a missing user.  Each carries
the context name and the dangling reference. -/
inductive Warning where
  | missing_cluster : String → String → Warning
  | missing_user : String → String → Warning
  deriving DecidableEq, Repr

/-- One iteration of the per-entity loop in merge_config_items: push the
item and bump the counter unless the accumulator already holds its name. -/
def mergeNamedStep (name : α → String) (acc : List α × Nat) (x : α) :
    List α × Nat :=
  if acc.1.any (fun y => name y == name x) then acc
  else (acc.1 ++ [x], acc.2 + 1)

/-- One entity-category loop of merge_config_items (src/merge.rs): fold the
incoming items into the accumulator, counting how many were added. -/
def mergeNamed (name : α → String) (all : List α) (items : List α) :
    List α × Nat :=
  items.foldl (mergeNamedStep name) (all, 0)

/-- src/merge.rs, merge_config_items: fold one document's clusters, contexts
and users into the three accumulators and return the new accumulators
together with the number of added items. -/
def merge_config_items (config : KubeConfig)
    (all_clusters : List NamedCluster) (all_contexts : List NamedContext)
    (all_users : List NamedUser) :
    (List NamedCluster × List NamedContext × List NamedUser) × Nat :=
  let rc := mergeNamed NamedCluster.name all_clusters (config.clusters.getD [])
  let rx := mergeNamed NamedContext.name all_contexts (config.contexts.getD [])
  let ru := mergeNamed NamedUser.name all_users (config.users.getD [])
  ((rc.1, rx.1, ru.1), rc.2 + rx.2 + ru.2)

/-- Rust HashMap::insert on the association-list model: replace the value at
an existing key, otherwise append the new binding. -/
def prefInsert (m : List (String × YamlValue)) (k : String) (v : YamlValue) :
    List (String × YamlValue) :=
  if m.any (fun p => p.1 == k) then
    m.map (fun p => if p.1 == k then (k, v) else p)
  else
    m ++ [(k, v)]

/-- The preferences loop of merge_kubeconfigs for one document: insert every
binding of the document into the accumulated map. -/
def docPrefStep (m : List (String × YamlValue)) (config : KubeConfig) :
    List (String × YamlValue) :=
  config.preferences.foldl (fun acc p => prefInsert acc p.1 p.2) m

/-- The mutable state of the merge_kubeconfigs loop (src/merge.rs lines 8-13). -/
structure MergeState where
  all_clusters : List NamedCluster
  all_contexts : List NamedContext
  all_users : List NamedUser
  current_context : String
  preferences : List (String × YamlValue)
  processed_files : Nat
  deriving DecidableEq, Repr

/-- The initial merge state: empty accumulators, empty current-context,
empty preferences, zero processed files. -/
def initState : MergeState :=
  { all_clusters := []
    all_contexts := []
    all_users := []
    current_context := ""
    preferences := []
    processed_files := 0 }

/-- One iteration of the file loop of merge_kubeconfigs.  A blank file
(content trims to empty) is `none` and is skipped; a parsed document is
folded into the accumulators, contributes its current-context if it is the
first non-empty one, overwrites preferences key by key, and counts as a
processed file exactly when it added at least one entity. -/
def mergeStep (st : MergeState) (file : Option KubeConfig) : MergeState :=
  match file with
  | none => st
  | some config =>
    let r := merge_config_items config st.all_clusters st.all_contexts
      st.all_users
    { all_clusters := r.1.1
      all_contexts := r.1.2.1
      all_users := r.1.2.2
      current_context :=
        if st.current_context == "" && config.current_context != "" then
          config.current_context
        else st.current_context
      preferences := docPrefStep st.preferences config
      processed_files :=
        if r.2 > 0 then st.processed_files + 1 else st.processed_files }

/-- The state after the whole file loop of merge_kubeconfigs. -/
def finalState (files : List (Option KubeConfig)) : MergeState :=
  files.foldl mergeStep initState

/-- src/merge.rs lines 58-78: assemble the merged document from the final
state, with canonical apiVersion and kind, and a collection omitted
(`none`) whenever its accumulator is empty. -/
def buildMerged (st : MergeState) : KubeConfig :=
  { api_version := "v1"
    kind := "Config"
    clusters := if st.all_clusters.isEmpty then none else some st.all_clusters
    contexts := if st.all_contexts.isEmpty then none else some st.all_contexts
    users := if st.all_users.isEmpty then none else some st.all_users
    current_context := st.current_context
    preferences := st.preferences }

/-- src/merge.rs lines 132-146: the fatal check of validate_config.  True
exactly when current-context is non-empty, the contexts collection is
present, and no context in it carries that name. -/
def currentContextMissing (config : KubeConfig) : Bool :=
  if config.current_context != "" then
    match config.contexts with
    | some contexts =>
      !(contexts.any (fun c => c.name == config.current_context))
    | none => false
  else false

/-- One iteration of the reference-check loop of validate_config: append a
warning when the context's cluster-name reference is not among the merged
cluster names, then one when its user-name reference is not among the
merged user names. -/
def refWarnStep (cluster_names user_names : List String)
    (ws : List Warning) (context : NamedContext) : List Warning :=
  let ws1 :=
    if !(cluster_names.contains context.context.cluster) then
      ws ++ [Warning.missing_cluster context.name context.context.cluster]
    else ws
  if !(user_names.contains context.context.user) then
    ws1 ++ [Warning.missing_user context.name context.context.user]
  else ws1

/-- src/merge.rs lines 148-174: the reference checks of validate_config.
For each merged context, in order, append a warning for a cluster-name
reference that matches no merged cluster, then one for a user-name
reference that matches no merged user. -/
def refWarnings (config : KubeConfig) : List Warning :=
  match config.contexts with
  | none => []
  | some contexts =>
    contexts.foldl
      (refWarnStep ((config.clusters.getD []).map NamedCluster.name)
        ((config.users.getD []).map NamedUser.name)) []

/-- src/merge.rs, validate_config: fail when the current-context check
fires, otherwise succeed with the list of reference warnings. -/
def validate_config (config : KubeConfig) :
    Except MergeFailure (List Warning) :=
  if currentContextMissing config then
    .error (.current_context_not_found config.current_context)
  else
    .ok (refWarnings config)

/-- src/merge.rs, merge_kubeconfigs: fold all files, fail when no file
added any item, otherwise build the merged document, validate it, and
return it. -/
def merge_kubeconfigs (files : List (Option KubeConfig)) :
    Except MergeFailure KubeConfig :=
  let st := finalState files
  if st.processed_files == 0 then
    .error .no_valid_files
  else
    match validate_config (buildMerged st) with
    | .error e => .error e
    | .ok _ => .ok (buildMerged st)

/-- The parsed (non-blank) documents of a file list, in order. -/
def parsedDocs (files : List (Option KubeConfig)) : List KubeConfig :=
  files.filterMap id

/-- All cluster records of the ordered input, concatenated in order. -/
def inputClusters (files : List (Option KubeConfig)) : List NamedCluster :=
  ((parsedDocs files).map (fun d => d.clusters.getD [])).flatten

/-- All context records of the ordered input, concatenated in order. -/
def inputContexts (files : List (Option KubeConfig)) : List NamedContext :=
  ((parsedDocs files).map (fun d => d.contexts.getD [])).flatten

/-- All user records of the ordered input, concatenated in order. -/
def inputUsers (files : List (Option KubeConfig)) : List NamedUser :=
  ((parsedDocs files).map (fun d => d.users.getD [])).flatten

/-- The first record with the given name, if any. -/
def findByName (name : α → String) (l : List α) (n : String) : Option α :=
  l.find? (fun x => name x == n)

/-- The value bound to a key in the association-list model of a map. -/
def prefLookup (m : List (String × YamlValue)) (k : String) :
    Option YamlValue :=
  (m.find? (fun p => p.1 == k)).map (fun p => p.2)

instance {ε α : Type} [DecidableEq ε] [DecidableEq α] :
    DecidableEq (Except ε α) :=
  fun a b =>
    match a, b with
    | .error e, .error f =>
      if h : e = f then isTrue (by rw [h]) else isFalse (by simp [h])
    | .ok x, .ok y =>
      if h : x = y then isTrue (by rw [h]) else isFalse (by simp [h])
    | .error _, .ok _ => isFalse (by simp)
    | .ok _, .error _ => isFalse (by simp)

/-! ### Name-keyed first-wins accumulation

The entity loops of merge_config_items all have the same shape: walk the
incoming items, appending an item exactly when its name is not yet in the
accumulator.  `dedupAcc` is that shape with the added-items counter
stripped; the lemmas below characterize it. -/

/-- One first-wins insertion, without the counter. -/
def dedupStep (name : α → String) (acc : List α) (x : α) : List α :=
  if acc.any (fun y => name y == name x) then acc else acc ++ [x]

/-- First-wins accumulation of `items` on top of `all`. -/
def dedupAcc (name : α → String) (all items : List α) : List α :=
  items.foldl (dedupStep name) all

/-- The current-context strings of all parsed documents, in order. -/
def inputCCs (files : List (Option KubeConfig)) : List String :=
  (parsedDocs files).map (fun d => d.current_context)

/-- The last binding of a key in an association list, if any: the value a
fold of insertions over the list leaves for that key. -/
def lookupLast (l : List (String × YamlValue)) (k : String) :
    Option YamlValue :=
  (l.reverse.find? (fun p => p.1 == k)).map (fun p => p.2)

/-- The warnings validate_config emits for one merged context: one entry for
a dangling cluster reference, then one for a dangling user reference. -/
def contextWarnings (cluster_names user_names : List String)
    (context : NamedContext) : List Warning :=
  (if !(cluster_names.contains context.context.cluster) then
    [Warning.missing_cluster context.name context.context.cluster]
  else []) ++
  (if !(user_names.contains context.context.user) then
    [Warning.missing_user context.name context.context.user]
  else [])

/-- The value for a key of the last document (in input order) that defines
it: search the parsed documents in reverse for one whose preferences bind
the key, and take that binding. -/
def lastDocPref (docs : List KubeConfig) (k : String) : Option YamlValue :=
  (docs.reverse.find? (fun d => (prefLookup d.preferences k).isSome)).bind
    (fun d => prefLookup d.preferences k)

/-- Like `lastDocPref` but with the last-binding lookup inside each
document; equal to `lastDocPref` on documents whose preference keys are
unique (as HashMap keys are). -/
def docsLastPref (docs : List KubeConfig) (k : String) : Option YamlValue :=
  (docs.reverse.find? (fun d => (lookupLast d.preferences k).isSome)).bind
    (fun d => lookupLast d.preferences k)

/-! ### Concrete documents used by the witness statements -/

/-- A cluster payload with the given server and passthrough fields. -/
def mkCluster (s : String) (extra : List (String × YamlValue)) : Cluster :=
  { certificate_authority_data := none
    certificate_authority := none
    server := s
    insecure_skip_tls_verify := none
    other := extra }

/-- A context payload referencing a cluster name and a user name. -/
def mkContext (cl us : String) : Context :=
  { cluster := cl, user := us, nmspace := none, other := [] }

/-- A user payload with no credential material. -/
def emptyUser : User :=
  { client_certificate_data := none
    client_key_data := none
    client_certificate := none
    client_key := none
    token := none
    username := none
    password := none
    other := [] }

/-- A parsed document with canonical metadata and no content. -/
def emptyDoc : KubeConfig :=
  { api_version := "v1"
    kind := "Config"
    clusters := none
    contexts := none
    users := none
    current_context := ""
    preferences := [] }

/-- First document of the first-wins scenario: cluster x with F=1. -/
def docA1 : KubeConfig :=
  { emptyDoc with
      clusters := some [⟨"x", mkCluster ("s1") [("F", YamlValue.int 1)]⟩] }

/-- Later document of the first-wins scenario: cluster x with F=2. -/
def docB1 : KubeConfig :=
  { emptyDoc with
      clusters := some [⟨"x", mkCluster ("s2") [("F", YamlValue.int 2)]⟩] }

/-- The first-wins scenario input. -/
def files1 : List (Option KubeConfig) := [some docA1, some docB1]

/-- The expected merged document of the first-wins scenario. -/
def merged1 : KubeConfig :=
  { emptyDoc with
      clusters := some [⟨"x", mkCluster ("s1") [("F", YamlValue.int 1)]⟩] }

/-- A document that contributes a non-empty current-context and a
preference key but not a single entity. -/
def docP2 : KubeConfig :=
  { emptyDoc with
      current_context := "c", preferences := [("k", YamlValue.int 1)] }

/-- A document whose current-context names no context while its contexts
collection is absent. -/
def ghostDoc : KubeConfig :=
  { emptyDoc with
      clusters := some [⟨"c1", mkCluster ("s") []⟩],
      current_context := "ghost" }

/-- Document A of the preferences scenario: one entity and k=1. -/
def docA4 : KubeConfig :=
  { emptyDoc with
      clusters := some [⟨"a", mkCluster ("sa") []⟩],
      preferences := [("k", YamlValue.int 1)] }

/-- Document B of the preferences scenario: k=2 and nothing else. -/
def docB4 : KubeConfig :=
  { emptyDoc with preferences := [("k", YamlValue.int 2)] }

/-- The last-wins preferences scenario input. -/
def files4 : List (Option KubeConfig) := [some docA4, some docB4]

/-- The expected merged document of the preferences scenario. -/
def merged4 : KubeConfig :=
  { emptyDoc with
      clusters := some [⟨"a", mkCluster ("sa") []⟩],
      preferences := [("k", YamlValue.int 2)] }

/-- A document with duplicate entity names inside one document. -/
def docDup5 : KubeConfig :=
  { emptyDoc with
      clusters := some
        [⟨"x", mkCluster ("s1") []⟩, ⟨"x", mkCluster ("s2") []⟩,
          ⟨"y", mkCluster ("s3") []⟩],
      users := some [⟨"u", emptyUser⟩, ⟨"u", emptyUser⟩] }

/-- The duplicate-names scenario input. -/
def files5 : List (Option KubeConfig) := [some docDup5]

/-- The expected merged document of the duplicate-names scenario. -/
def merged5 : KubeConfig :=
  { emptyDoc with
      clusters := some
        [⟨"x", mkCluster ("s1") []⟩, ⟨"y", mkCluster ("s3") []⟩],
      users := some [⟨"u", emptyUser⟩] }

/-- Document A of the current-context scenario: one entity, empty
current-context. -/
def docA6 : KubeConfig :=
  { emptyDoc with clusters := some [⟨"a", mkCluster ("sa") []⟩] }

/-- Document B of the current-context scenario: current-context ctx1. -/
def docB6 : KubeConfig :=
  { emptyDoc with current_context := "ctx1" }

/-- The current-context scenario input. -/
def files6 : List (Option KubeConfig) := [some docA6, some docB6]

/-- The expected merged document of the current-context scenario. -/
def merged6 : KubeConfig :=
  { emptyDoc with
      clusters := some [⟨"a", mkCluster ("sa") []⟩],
      current_context := "ctx1" }

/-- A merged context referencing the existing cluster c1 and the missing
user missing-user. -/
def ctx7 : NamedContext := ⟨"ctx", mkContext ("c1") ("missing-user")⟩

/-- A merged document with one context whose user reference dangles. -/
def cfg7 : KubeConfig :=
  { emptyDoc with
      clusters := some [⟨"c1", mkCluster ("s") []⟩],
      contexts := some [ctx7] }

/-- A fully populated document for the identity-law witness. -/
def docD8 : KubeConfig :=
  { emptyDoc with
      clusters := some [⟨"x", mkCluster ("s") []⟩],
      contexts := some [⟨"ctx", mkContext ("x") ("u")⟩],
      users := some [⟨"u", emptyUser⟩],
      current_context := "ctx",
      preferences := [("p", YamlValue.str ("v"))] }

/-- The identity-law witness input: blanks around one document. -/
def files8 : List (Option KubeConfig) := [none, some docD8, none]

/-- A document with non-canonical apiVersion metadata. -/
def exD8 : KubeConfig :=
  { emptyDoc with
      api_version := "v2",
      clusters := some [⟨"x", mkCluster ("s") []⟩] }

/-- The document merge actually returns for `[some exD8]`. -/
def exD8merged : KubeConfig :=
  { emptyDoc with clusters := some [⟨"x", mkCluster ("s") []⟩] }

/-- A one-entity document for the absent-or-non-empty witness. -/
def doc10 : KubeConfig :=
  { emptyDoc with users := some [⟨"u10", emptyUser⟩] }

/-- The absent-or-non-empty witness input. -/
def files10 : List (Option KubeConfig) := [some doc10]

/-- The expected merged document of the absent-or-non-empty witness. -/
def merged10 : KubeConfig :=
  { emptyDoc with users := some [⟨"u10", emptyUser⟩] }

theorem mergeNamedStep_fst (name : α → String) (acc : List α × Nat) (x : α) :
    (mergeNamedStep name acc x).1 = dedupStep name acc.1 x := by
  unfold mergeNamedStep dedupStep
  split <;> simp_all

theorem mergeNamedStep_count_le (name : α → String) (acc : List α × Nat)
    (x : α) : acc.2 ≤ (mergeNamedStep name acc x).2 := by
  unfold mergeNamedStep
  split <;> simp

theorem foldl_mergeNamedStep_fst (name : α → String) :
    ∀ (items : List α) (acc : List α × Nat),
      (items.foldl (mergeNamedStep name) acc).1 = dedupAcc name acc.1 items
  | [], _ => rfl
  | x :: items, acc => by
    have h := foldl_mergeNamedStep_fst name items (mergeNamedStep name acc x)
    simpa [dedupAcc, List.foldl_cons, mergeNamedStep_fst] using h

theorem mergeNamed_fst (name : α → String) (all items : List α) :
    (mergeNamed name all items).1 = dedupAcc name all items :=
  foldl_mergeNamedStep_fst name items (all, 0)

theorem foldl_mergeNamedStep_count_le (name : α → String) :
    ∀ (items : List α) (acc : List α × Nat),
      acc.2 ≤ (items.foldl (mergeNamedStep name) acc).2
  | [], _ => Nat.le_refl _
  | x :: items, acc =>
    Nat.le_trans (mergeNamedStep_count_le name acc x)
      (foldl_mergeNamedStep_count_le name items (mergeNamedStep name acc x))

theorem mergeNamed_count_pos (name : α → String) (x : α) (items : List α) :
    1 ≤ (mergeNamed name [] (x :: items)).2 := by
  unfold mergeNamed
  rw [List.foldl_cons]
  have hstep : mergeNamedStep name ([], 0) x = ([x], 1) := by
    unfold mergeNamedStep
    simp
  rw [hstep]
  exact foldl_mergeNamedStep_count_le name items ([x], 1)

theorem dedupAcc_append (name : α → String) (all l₁ l₂ : List α) :
    dedupAcc name all (l₁ ++ l₂) = dedupAcc name (dedupAcc name all l₁) l₂ :=
  List.foldl_append ..

theorem findByName_cons (name : α → String) (x : α) (l : List α) (n : String) :
    findByName name (x :: l) n =
      if name x == n then some x else findByName name l n := by
  by_cases h : (name x == n) = true
  · simp only [findByName, if_pos h]
    exact List.find?_cons_of_pos l h
  · simp only [findByName, if_neg h]
    exact List.find?_cons_of_neg l h

theorem findByName_append (name : α → String) (l₁ l₂ : List α) (n : String) :
    findByName name (l₁ ++ l₂) n =
      (findByName name l₁ n).or (findByName name l₂ n) := by
  unfold findByName
  exact List.find?_append

theorem isSome_findByName (name : α → String) (l : List α) (n : String) :
    (findByName name l n).isSome ↔ ∃ x ∈ l, name x = n := by
  unfold findByName
  simp [List.find?_isSome]

/-- The central characterization of first-wins accumulation: looking up a
name in the accumulated list is looking it up first in the initial
accumulator and then in the incoming items. -/
theorem findByName_dedupAcc (name : α → String) :
    ∀ (items all : List α) (n : String),
      findByName name (dedupAcc name all items) n =
        (findByName name all n).or (findByName name items n)
  | [], all, n => by simp [dedupAcc, findByName, Option.or_none]
  | x :: items, all, n => by
    have hstep : dedupAcc name all (x :: items)
        = dedupAcc name (dedupStep name all x) items := rfl
    rw [hstep, findByName_dedupAcc name items (dedupStep name all x) n,
      findByName_cons]
    unfold dedupStep
    by_cases h : all.any (fun y => name y == name x) = true
    · rw [if_pos h]
      by_cases hx : (name x == n) = true
      · have hxn : name x = n := by simpa using hx
        have hsome : (findByName name all n).isSome := by
          rw [isSome_findByName]
          obtain ⟨y, hy, hyx⟩ := List.any_eq_true.mp h
          exact ⟨y, hy, by simpa [hxn] using hyx⟩
        obtain ⟨z, hz⟩ := Option.isSome_iff_exists.mp hsome
        rw [if_pos hx, hz]
        simp
      · rw [if_neg hx]
    · rw [if_neg h, findByName_append, Option.or_assoc]
      congr 1
      rw [findByName_cons]
      by_cases hx : (name x == n) = true
      · rw [if_pos hx, if_pos hx]
        simp [findByName]
      · rw [if_neg hx, if_neg hx]
        simp [findByName]

/-- First-wins accumulation preserves uniqueness of names. -/
theorem nodup_dedupAcc (name : α → String) :
    ∀ (items all : List α), (all.map name).Nodup →
      ((dedupAcc name all items).map name).Nodup
  | [], _, h => h
  | x :: items, all, h => by
    have hstep : dedupAcc name all (x :: items)
        = dedupAcc name (dedupStep name all x) items := rfl
    rw [hstep]
    apply nodup_dedupAcc name items
    unfold dedupStep
    by_cases hc : all.any (fun y => name y == name x) = true
    · rw [if_pos hc]
      exact h
    · rw [if_neg hc]
      simp only [List.any_eq_true, beq_iff_eq] at hc
      push_neg at hc
      rw [List.map_append]
      refine List.Nodup.append h (List.nodup_singleton _) ?_
      intro a ha hax
      obtain ⟨y, hy, rfl⟩ := List.mem_map.mp ha
      exact hc y hy (by simpa using hax)

/-- When all names are distinct, first-wins accumulation is concatenation. -/
theorem dedupAcc_eq_append (name : α → String) :
    ∀ (items all : List α), ((all ++ items).map name).Nodup →
      dedupAcc name all items = all ++ items
  | [], all, _ => by simp [dedupAcc]
  | x :: items, all, h => by
    have h' := h
    rw [List.map_append] at h'
    obtain ⟨_, _, hd⟩ := List.nodup_append.mp h'
    have hnotin : ∀ y ∈ all, name y ≠ name x := by
      intro y hy heq
      exact hd (List.mem_map_of_mem name hy)
        (by rw [List.map_cons]; exact heq ▸ List.mem_cons_self _ _)
    have hstep : dedupStep name all x = all ++ [x] := by
      unfold dedupStep
      rw [if_neg]
      simp only [List.any_eq_true, beq_iff_eq]
      push_neg
      exact hnotin
    have hcons : dedupAcc name all (x :: items)
        = dedupAcc name (dedupStep name all x) items := rfl
    have h2 : (((all ++ [x]) ++ items).map name).Nodup := by
      simpa [List.append_assoc] using h
    rw [hcons, hstep, dedupAcc_eq_append name items (all ++ [x]) h2]
    simp

/-- In a list whose names are unique, looking up a member's name returns
that member. -/
theorem findByName_of_mem (name : α → String) :
    ∀ (l : List α) (c : α), (l.map name).Nodup → c ∈ l →
      findByName name l (name c) = some c
  | [], c, _, hm => absurd hm (List.not_mem_nil c)
  | x :: l, c, hnd, hm => by
    rw [List.map_cons] at hnd
    rw [findByName_cons]
    rcases List.mem_cons.mp hm with rfl | hc
    · rw [if_pos (by simp)]
    · have hne : name x ≠ name c := by
        intro heq
        exact (List.nodup_cons.mp hnd).1 (heq ▸ List.mem_map_of_mem name hc)
      rw [if_neg (by simpa using hne)]
      exact findByName_of_mem name l c (List.nodup_cons.mp hnd).2 hc

/-! ### Unrolling the file loop

Each field of the loop state is characterized independently as a fold over
the parsed documents. -/

theorem mergeStep_none (st : MergeState) : mergeStep st none = st := rfl

theorem mergeStep_some_all_clusters (st : MergeState) (c : KubeConfig) :
    (mergeStep st (some c)).all_clusters =
      dedupAcc NamedCluster.name st.all_clusters (c.clusters.getD []) := by
  simp [mergeStep, merge_config_items, mergeNamed_fst]

theorem mergeStep_some_all_contexts (st : MergeState) (c : KubeConfig) :
    (mergeStep st (some c)).all_contexts =
      dedupAcc NamedContext.name st.all_contexts (c.contexts.getD []) := by
  simp [mergeStep, merge_config_items, mergeNamed_fst]

theorem mergeStep_some_all_users (st : MergeState) (c : KubeConfig) :
    (mergeStep st (some c)).all_users =
      dedupAcc NamedUser.name st.all_users (c.users.getD []) := by
  simp [mergeStep, merge_config_items, mergeNamed_fst]

theorem foldl_mergeStep_clusters :
    ∀ (files : List (Option KubeConfig)) (st : MergeState),
      (files.foldl mergeStep st).all_clusters =
        dedupAcc NamedCluster.name st.all_clusters (inputClusters files)
  | [], st => by simp [inputClusters, parsedDocs, dedupAcc]
  | none :: files, st => by
    rw [List.foldl_cons, mergeStep_none, foldl_mergeStep_clusters files st]
    rfl
  | some c :: files, st => by
    rw [List.foldl_cons, foldl_mergeStep_clusters files (mergeStep st (some c)),
      mergeStep_some_all_clusters]
    have h2 : inputClusters (some c :: files) =
        c.clusters.getD [] ++ inputClusters files := by
      simp [inputClusters, parsedDocs]
    rw [h2, dedupAcc_append]

theorem foldl_mergeStep_contexts :
    ∀ (files : List (Option KubeConfig)) (st : MergeState),
      (files.foldl mergeStep st).all_contexts =
        dedupAcc NamedContext.name st.all_contexts (inputContexts files)
  | [], st => by simp [inputContexts, parsedDocs, dedupAcc]
  | none :: files, st => by
    rw [List.foldl_cons, mergeStep_none, foldl_mergeStep_contexts files st]
    rfl
  | some c :: files, st => by
    rw [List.foldl_cons, foldl_mergeStep_contexts files (mergeStep st (some c)),
      mergeStep_some_all_contexts]
    have h2 : inputContexts (some c :: files) =
        c.contexts.getD [] ++ inputContexts files := by
      simp [inputContexts, parsedDocs]
    rw [h2, dedupAcc_append]

theorem foldl_mergeStep_users :
    ∀ (files : List (Option KubeConfig)) (st : MergeState),
      (files.foldl mergeStep st).all_users =
        dedupAcc NamedUser.name st.all_users (inputUsers files)
  | [], st => by simp [inputUsers, parsedDocs, dedupAcc]
  | none :: files, st => by
    rw [List.foldl_cons, mergeStep_none, foldl_mergeStep_users files st]
    rfl
  | some c :: files, st => by
    rw [List.foldl_cons, foldl_mergeStep_users files (mergeStep st (some c)),
      mergeStep_some_all_users]
    have h2 : inputUsers (some c :: files) =
        c.users.getD [] ++ inputUsers files := by
      simp [inputUsers, parsedDocs]
    rw [h2, dedupAcc_append]

theorem foldl_mergeStep_preferences :
    ∀ (files : List (Option KubeConfig)) (st : MergeState),
      (files.foldl mergeStep st).preferences =
        (parsedDocs files).foldl docPrefStep st.preferences
  | [], _ => rfl
  | none :: files, st => by
    rw [List.foldl_cons, mergeStep_none, foldl_mergeStep_preferences files st]
    rfl
  | some c :: files, st => by
    rw [List.foldl_cons, foldl_mergeStep_preferences files (mergeStep st (some c))]
    have h1 : (mergeStep st (some c)).preferences =
        docPrefStep st.preferences c := rfl
    have h2 : parsedDocs (some c :: files) = c :: parsedDocs files := rfl
    rw [h1, h2, List.foldl_cons]

theorem foldl_mergeStep_current_context :
    ∀ (files : List (Option KubeConfig)) (st : MergeState),
      (files.foldl mergeStep st).current_context =
        if st.current_context == "" then
          ((inputCCs files).find? (fun s => s != "")).getD ""
        else st.current_context
  | [], st => by
    by_cases h : (st.current_context == "") = true
    · simp only [List.foldl_nil, if_pos h, inputCCs, parsedDocs]
      simpa using (beq_iff_eq.mp h)
    · simp only [List.foldl_nil, if_neg h]
  | none :: files, st => by
    rw [List.foldl_cons, mergeStep_none, foldl_mergeStep_current_context files st]
    rfl
  | some c :: files, st => by
    have h2 : inputCCs (some c :: files) = c.current_context :: inputCCs files :=
      rfl
    rw [List.foldl_cons,
      foldl_mergeStep_current_context files (mergeStep st (some c)), h2]
    by_cases hst : st.current_context = ""
    · by_cases hc : c.current_context = ""
      · have h1 : (mergeStep st (some c)).current_context =
            st.current_context := by
          simp [mergeStep, hc]
        have hfind :
            List.find? (fun s => s != "") (c.current_context :: inputCCs files)
              = List.find? (fun s => s != "") (inputCCs files) := by
          rw [hc]
          exact List.find?_cons_of_neg _ (by decide)
        rw [h1, hfind]
      · have h1 : (mergeStep st (some c)).current_context =
            c.current_context := by
          simp [mergeStep, hst, hc]
        have hfind :
            List.find? (fun s => s != "") (c.current_context :: inputCCs files)
              = some c.current_context :=
          List.find?_cons_of_pos _ (by simpa [bne] using hc)
        rw [h1, hfind, if_neg (by simpa using hc), if_pos (by simpa using hst)]
        rfl
    · have h1 : (mergeStep st (some c)).current_context =
          st.current_context := by
        simp [mergeStep, hst]
      rw [h1, if_neg (by simpa using hst), if_neg (by simpa using hst)]

theorem mergeStep_processed_le (st : MergeState) (f : Option KubeConfig) :
    st.processed_files ≤ (mergeStep st f).processed_files := by
  match f with
  | none => exact Nat.le_refl _
  | some c =>
    show st.processed_files ≤
      (if (merge_config_items c st.all_clusters st.all_contexts st.all_users).2 > 0
        then st.processed_files + 1 else st.processed_files)
    split
    · exact Nat.le_succ _
    · exact Nat.le_refl _

theorem foldl_mergeStep_processed_le :
    ∀ (files : List (Option KubeConfig)) (st : MergeState),
      st.processed_files ≤ (files.foldl mergeStep st).processed_files
  | [], _ => Nat.le_refl _
  | f :: files, st =>
    Nat.le_trans (mergeStep_processed_le st f)
      (foldl_mergeStep_processed_le files (mergeStep st f))

/-- While the three accumulators are empty, the processed-files counter
stays put exactly when the remaining input contributes no entity at all:
a document whose every entity list is empty never bumps the counter (even
if it carries a current-context or preferences), and any entity bumps it. -/
theorem foldl_mergeStep_processed_iff :
    ∀ (files : List (Option KubeConfig)) (st : MergeState),
      st.all_clusters = [] → st.all_contexts = [] → st.all_users = [] →
      ((files.foldl mergeStep st).processed_files = st.processed_files ↔
        inputClusters files = [] ∧ inputContexts files = [] ∧
          inputUsers files = [])
  | [], st, _, _, _ => by
    simp [inputClusters, inputContexts, inputUsers, parsedDocs]
  | none :: files, st, h1, h2, h3 => by
    rw [List.foldl_cons, mergeStep_none]
    exact foldl_mergeStep_processed_iff files st h1 h2 h3
  | some c :: files, st, h1, h2, h3 => by
    have hin1 : inputClusters (some c :: files) =
        c.clusters.getD [] ++ inputClusters files := by
      simp [inputClusters, parsedDocs]
    have hin2 : inputContexts (some c :: files) =
        c.contexts.getD [] ++ inputContexts files := by
      simp [inputContexts, parsedDocs]
    have hin3 : inputUsers (some c :: files) =
        c.users.getD [] ++ inputUsers files := by
      simp [inputUsers, parsedDocs]
    rw [List.foldl_cons, hin1, hin2, hin3]
    by_cases hc : c.clusters.getD [] = []
    · by_cases hx : c.contexts.getD [] = []
      · by_cases hu : c.users.getD [] = []
        · have ha : (mergeStep st (some c)).all_clusters = [] := by
            rw [mergeStep_some_all_clusters, h1, hc]
            rfl
          have hb : (mergeStep st (some c)).all_contexts = [] := by
            rw [mergeStep_some_all_contexts, h2, hx]
            rfl
          have hcu : (mergeStep st (some c)).all_users = [] := by
            rw [mergeStep_some_all_users, h3, hu]
            rfl
          have hp : (mergeStep st (some c)).processed_files =
              st.processed_files := by
            simp [mergeStep, merge_config_items, hc, hx, hu, mergeNamed]
          rw [hc, hx, hu]
          simp only [List.nil_append]
          rw [← hp]
          exact foldl_mergeStep_processed_iff files (mergeStep st (some c))
            ha hb hcu
        · obtain ⟨x, xs, hxe⟩ := List.exists_cons_of_ne_nil hu
          have hpos : (merge_config_items c st.all_clusters st.all_contexts
              st.all_users).2 > 0 := by
            have hcount := mergeNamed_count_pos NamedUser.name x xs
            simp only [merge_config_items]
            rw [h3, hxe]
            omega
          have hproc : (mergeStep st (some c)).processed_files =
              st.processed_files + 1 := by
            simp [mergeStep, hpos]
          have hge := foldl_mergeStep_processed_le files (mergeStep st (some c))
          rw [hproc] at hge
          refine iff_of_false (by omega) ?_
          intro hcontra
          rw [hxe] at hcontra
          simp at hcontra
      · obtain ⟨x, xs, hxe⟩ := List.exists_cons_of_ne_nil hx
        have hpos : (merge_config_items c st.all_clusters st.all_contexts
            st.all_users).2 > 0 := by
          have hcount := mergeNamed_count_pos NamedContext.name x xs
          simp only [merge_config_items]
          rw [h2, hxe]
          omega
        have hproc : (mergeStep st (some c)).processed_files =
            st.processed_files + 1 := by
          simp [mergeStep, hpos]
        have hge := foldl_mergeStep_processed_le files (mergeStep st (some c))
        rw [hproc] at hge
        refine iff_of_false (by omega) ?_
        intro hcontra
        rw [hxe] at hcontra
        simp at hcontra
    · obtain ⟨x, xs, hxe⟩ := List.exists_cons_of_ne_nil hc
      have hpos : (merge_config_items c st.all_clusters st.all_contexts
          st.all_users).2 > 0 := by
        have hcount := mergeNamed_count_pos NamedCluster.name x xs
        simp only [merge_config_items]
        rw [h1, hxe]
        omega
      have hproc : (mergeStep st (some c)).processed_files =
          st.processed_files + 1 := by
        simp [mergeStep, hpos]
      have hge := foldl_mergeStep_processed_le files (mergeStep st (some c))
      rw [hproc] at hge
      refine iff_of_false (by omega) ?_
      intro hcontra
      rw [hxe] at hcontra
      simp at hcontra

/-- The guard of merge_kubeconfigs fires exactly when not a single entity
occurs in the whole parsed input. -/
theorem finalState_processed_eq_zero_iff (files : List (Option KubeConfig)) :
    ((finalState files).processed_files = 0 ↔
      inputClusters files = [] ∧ inputContexts files = [] ∧
        inputUsers files = []) :=
  foldl_mergeStep_processed_iff files initState rfl rfl rfl

/-- A document with at least one entity always counts at least one added
item when the accumulators are empty. -/
theorem merge_config_items_count_pos (c : KubeConfig)
    (h : ¬(c.clusters.getD [] = [] ∧ c.contexts.getD [] = [] ∧
      c.users.getD [] = [])) :
    (merge_config_items c [] [] []).2 > 0 := by
  simp only [merge_config_items]
  by_cases hc : c.clusters.getD [] = []
  · by_cases hx : c.contexts.getD [] = []
    · have hu : c.users.getD [] ≠ [] := fun hu => h ⟨hc, hx, hu⟩
      obtain ⟨x, xs, hxe⟩ := List.exists_cons_of_ne_nil hu
      have := mergeNamed_count_pos NamedUser.name x xs
      rw [hxe]
      omega
    · obtain ⟨x, xs, hxe⟩ := List.exists_cons_of_ne_nil hx
      have := mergeNamed_count_pos NamedContext.name x xs
      rw [hxe]
      omega
  · obtain ⟨x, xs, hxe⟩ := List.exists_cons_of_ne_nil hc
    have := mergeNamed_count_pos NamedCluster.name x xs
    rw [hxe]
    omega

/-- A run of blank files leaves the state untouched. -/
theorem foldl_mergeStep_blanks :
    ∀ (l : List (Option KubeConfig)) (st : MergeState),
      (∀ f ∈ l, f = none) → l.foldl mergeStep st = st
  | [], _, _ => rfl
  | f :: l, st, h => by
    have hf : f = none := h f (List.mem_cons_self f l)
    rw [List.foldl_cons, hf, mergeStep_none]
    exact foldl_mergeStep_blanks l st
      (fun g hg => h g (List.mem_cons_of_mem f hg))

/-! ### Reading off the merged document -/

theorem buildMerged_clusters_getD (st : MergeState) :
    (buildMerged st).clusters.getD [] = st.all_clusters := by
  unfold buildMerged
  by_cases h : st.all_clusters.isEmpty = true
  · simp [h, List.isEmpty_iff.mp h]
  · simp [h]

theorem buildMerged_contexts_getD (st : MergeState) :
    (buildMerged st).contexts.getD [] = st.all_contexts := by
  unfold buildMerged
  by_cases h : st.all_contexts.isEmpty = true
  · simp [h, List.isEmpty_iff.mp h]
  · simp [h]

theorem buildMerged_users_getD (st : MergeState) :
    (buildMerged st).users.getD [] = st.all_users := by
  unfold buildMerged
  by_cases h : st.all_users.isEmpty = true
  · simp [h, List.isEmpty_iff.mp h]
  · simp [h]

/-- Inversion for a successful merge: the guard did not fire, validation
passed, and the result is the document built from the final state. -/
theorem merge_ok_iff (files : List (Option KubeConfig)) (merged : KubeConfig) :
    merge_kubeconfigs files = .ok merged ↔
      ((finalState files).processed_files ≠ 0 ∧
        currentContextMissing (buildMerged (finalState files)) = false ∧
        merged = buildMerged (finalState files)) := by
  simp only [merge_kubeconfigs, validate_config]
  by_cases h0 : (finalState files).processed_files = 0
  · rw [if_pos (by simpa using h0)]
    simp [h0]
  · rw [if_neg (by simpa using h0)]
    by_cases h1 : currentContextMissing (buildMerged (finalState files)) = true
    · rw [if_pos h1]
      simp [h0, h1]
    · rw [if_neg h1]
      simp only [Bool.not_eq_true] at h1
      simp [h0, h1, eq_comm]

/-! ### The preferences map -/

theorem find?_cons_pos (p : α → Bool) (a : α) (l : List α) (h : p a = true) :
    (a :: l).find? p = some a :=
  List.find?_cons_of_pos l h

theorem find?_cons_neg (p : α → Bool) (a : α) (l : List α) (h : p a = false) :
    (a :: l).find? p = l.find? p :=
  List.find?_cons_of_neg l (by simp [h])

theorem find?_map_replace_self (k' : String) (v : YamlValue) :
    ∀ m : List (String × YamlValue), m.any (fun p => p.1 == k') = true →
      (m.map (fun p => if p.1 == k' then (k', v) else p)).find?
        (fun p => p.1 == k') = some (k', v)
  | [], h => by simp at h
  | p :: m, h => by
    rw [List.map_cons]
    by_cases hp : (p.1 == k') = true
    · have hgp : (if p.1 == k' then (k', v) else p) = (k', v) := if_pos hp
      rw [hgp]
      exact find?_cons_pos _ _ _ (by simp)
    · have hpf : (p.1 == k') = false := by rwa [Bool.not_eq_true] at hp
      have hgp : (if p.1 == k' then (k', v) else p) = p := if_neg hp
      rw [hgp, find?_cons_neg (fun q => q.1 == k') p _ hpf]
      have hm : m.any (fun p => p.1 == k') = true := by
        rcases List.any_eq_true.mp h with ⟨q, hq, hq'⟩
        rcases List.mem_cons.mp hq with rfl | hq
        · exact absurd hq' hp
        · exact List.any_eq_true.mpr ⟨q, hq, hq'⟩
      exact find?_map_replace_self k' v m hm

theorem find?_map_replace_other (k' k : String) (v : YamlValue)
    (hk : (k' == k) = false) :
    ∀ m : List (String × YamlValue),
      (m.map (fun p => if p.1 == k' then (k', v) else p)).find?
        (fun p => p.1 == k) = m.find? (fun p => p.1 == k)
  | [] => rfl
  | p :: m => by
    rw [List.map_cons]
    by_cases hp : (p.1 == k') = true
    · have hgp : (if p.1 == k' then (k', v) else p) = (k', v) := if_pos hp
      have hpk : (p.1 == k) = false := by
        rw [beq_iff_eq.mp hp]
        exact hk
      rw [hgp, find?_cons_neg (fun q => q.1 == k) (k', v) _ hk,
        find?_cons_neg (fun q => q.1 == k) p m hpk]
      exact find?_map_replace_other k' k v hk m
    · have hgp : (if p.1 == k' then (k', v) else p) = p := if_neg hp
      rw [hgp]
      by_cases hpk : (p.1 == k) = true
      · rw [find?_cons_pos (fun q => q.1 == k) p _ hpk,
          find?_cons_pos (fun q => q.1 == k) p m hpk]
      · have hpf : (p.1 == k) = false := by rwa [Bool.not_eq_true] at hpk
        rw [find?_cons_neg (fun q => q.1 == k) p _ hpf,
          find?_cons_neg (fun q => q.1 == k) p m hpf]
        exact find?_map_replace_other k' k v hk m

/-- Lookup after one insertion: the inserted key now maps to the new
value, every other key is untouched. -/
theorem prefLookup_prefInsert (m : List (String × YamlValue))
    (k' k : String) (v : YamlValue) :
    prefLookup (prefInsert m k' v) k =
      if k = k' then some v else prefLookup m k := by
  by_cases hany : m.any (fun p => p.1 == k') = true
  · unfold prefInsert
    rw [if_pos hany]
    by_cases hk : k = k'
    · subst hk
      rw [if_pos rfl]
      unfold prefLookup
      rw [find?_map_replace_self k v m hany]
      rfl
    · rw [if_neg hk]
      unfold prefLookup
      rw [find?_map_replace_other k' k v (by simpa using fun h => hk h.symm) m]
  · unfold prefInsert
    rw [if_neg hany]
    unfold prefLookup
    rw [List.find?_append]
    by_cases hk : k = k'
    · subst hk
      have hf : m.any (fun p => p.1 == k) = false := by
        rwa [Bool.not_eq_true] at hany
      have hnone : m.find? (fun p => p.1 == k) = none := by
        rw [List.find?_eq_none]
        intro p hp
        exact List.any_eq_false.mp hf p hp
      rw [hnone, if_pos rfl]
      simp
    · rw [if_neg hk]
      have hone : List.find? (fun p => p.1 == k) [(k', v)] = none := by
        rw [List.find?_eq_none]
        intro p hp hq
        rw [List.mem_singleton.mp hp] at hq
        exact hk (beq_iff_eq.mp hq).symm
      rw [hone, Option.or_none]

theorem lookupLast_nil (k : String) : lookupLast [] k = none := rfl

theorem lookupLast_cons (p : String × YamlValue)
    (l : List (String × YamlValue)) (k : String) :
    lookupLast (p :: l) k =
      (lookupLast l k).or (if p.1 == k then some p.2 else none) := by
  unfold lookupLast
  rw [List.reverse_cons, List.find?_append, Option.map_or']
  congr 1
  by_cases hp : (p.1 == k) = true
  · rw [if_pos hp, find?_cons_pos (fun q => q.1 == k) p [] hp]
    rfl
  · have hpf : (p.1 == k) = false := by rwa [Bool.not_eq_true] at hp
    rw [if_neg hp, find?_cons_neg (fun q => q.1 == k) p [] hpf]
    rfl

/-- Folding a document's insertions over an accumulated map: a key ends at
the document's last binding when there is one, else at its old value. -/
theorem prefLookup_foldl_inserts :
    ∀ (l m : List (String × YamlValue)) (k : String),
      prefLookup (l.foldl (fun acc p => prefInsert acc p.1 p.2) m) k =
        (lookupLast l k).or (prefLookup m k)
  | [], m, k => by simp [lookupLast, prefLookup]
  | p :: l, m, k => by
    rw [List.foldl_cons,
      prefLookup_foldl_inserts l (prefInsert m p.1 p.2) k,
      prefLookup_prefInsert, lookupLast_cons, Option.or_assoc]
    congr 1
    by_cases hk : k = p.1
    · subst hk
      rw [if_pos rfl, if_pos (by simp), Option.or_some]
    · rw [if_neg hk, if_neg (by simpa using fun h => hk (by simp [h])),
        Option.none_or]

theorem prefLookup_eq_none_of_not_mem (l : List (String × YamlValue))
    (k : String) (h : k ∉ l.map Prod.fst) : prefLookup l k = none := by
  have hf : l.find? (fun p => p.1 == k) = none := by
    rw [List.find?_eq_none]
    intro p hp hq
    exact h (beq_iff_eq.mp hq ▸ List.mem_map_of_mem Prod.fst hp)
  rw [prefLookup, hf]
  rfl

theorem lookupLast_eq_none_of_not_mem (l : List (String × YamlValue))
    (k : String) (h : k ∉ l.map Prod.fst) : lookupLast l k = none := by
  have hf : l.reverse.find? (fun p => p.1 == k) = none := by
    rw [List.find?_eq_none]
    intro p hp hq
    exact h (beq_iff_eq.mp hq ▸
      List.mem_map_of_mem Prod.fst (List.mem_reverse.mp hp))
  rw [lookupLast, hf]
  rfl

/-- On a map with unique keys the last binding is the first binding. -/
theorem lookupLast_eq_prefLookup :
    ∀ (l : List (String × YamlValue)), (l.map Prod.fst).Nodup →
      ∀ k, lookupLast l k = prefLookup l k
  | [], _, k => rfl
  | p :: l, hnd, k => by
    rw [List.map_cons] at hnd
    have hfst : p.1 ∉ l.map Prod.fst := (List.nodup_cons.mp hnd).1
    have hnd' : (l.map Prod.fst).Nodup := (List.nodup_cons.mp hnd).2
    rw [lookupLast_cons]
    have hcons : prefLookup (p :: l) k =
        if p.1 == k then some p.2 else prefLookup l k := by
      by_cases hp : (p.1 == k) = true
      · rw [if_pos hp]
        unfold prefLookup
        rw [find?_cons_pos (fun q => q.1 == k) p l hp]
        rfl
      · have hpf : (p.1 == k) = false := by rwa [Bool.not_eq_true] at hp
        rw [if_neg hp]
        unfold prefLookup
        rw [find?_cons_neg (fun q => q.1 == k) p l hpf]
    rw [hcons]
    by_cases hp : (p.1 == k) = true
    · have hnone : lookupLast l k = none := by
        rw [← beq_iff_eq.mp hp]
        exact lookupLast_eq_none_of_not_mem l p.1 hfst
      rw [if_pos hp, if_pos hp, hnone]
      rfl
    · rw [if_neg hp, if_neg hp, Option.or_none]
      exact lookupLast_eq_prefLookup l hnd' k

theorem docsLastPref_cons (d : KubeConfig) (docs : List KubeConfig)
    (k : String) :
    docsLastPref (d :: docs) k =
      (docsLastPref docs k).or (lookupLast d.preferences k) := by
  unfold docsLastPref
  rw [List.reverse_cons, List.find?_append]
  cases hA : docs.reverse.find?
      (fun d => (lookupLast d.preferences k).isSome) with
  | some d' =>
    have hq := List.find?_some hA
    obtain ⟨v, hv⟩ := Option.isSome_iff_exists.mp hq
    rw [Option.or_some, Option.some_bind, hv, Option.or_some]
  | none =>
    rw [Option.none_or, Option.none_bind, Option.none_or]
    by_cases hd : (lookupLast d.preferences k).isSome = true
    · rw [find?_cons_pos (fun d => (lookupLast d.preferences k).isSome) d [] hd,
        Option.some_bind]
    · have hdf : (lookupLast d.preferences k).isSome = false := by
        rwa [Bool.not_eq_true] at hd
      have hnone : lookupLast d.preferences k = none :=
        Option.not_isSome_iff_eq_none.mp (by simp [hdf])
      rw [find?_cons_neg (fun d => (lookupLast d.preferences k).isSome) d []
        hdf, hnone]
      rfl

theorem prefLookup_docPrefStep (m : List (String × YamlValue))
    (d : KubeConfig) (k : String) :
    prefLookup (docPrefStep m d) k =
      (lookupLast d.preferences k).or (prefLookup m k) :=
  prefLookup_foldl_inserts d.preferences m k

/-- Folding whole documents: a key ends at the last document that binds
it, else at its old value. -/
theorem prefLookup_foldl_docPrefStep :
    ∀ (docs : List KubeConfig) (m : List (String × YamlValue)) (k : String),
      prefLookup (docs.foldl docPrefStep m) k =
        (docsLastPref docs k).or (prefLookup m k)
  | [], m, k => by simp [docsLastPref]
  | d :: docs, m, k => by
    rw [List.foldl_cons, prefLookup_foldl_docPrefStep docs (docPrefStep m d) k,
      prefLookup_docPrefStep, docsLastPref_cons, ← Option.or_assoc]

/-- With unique keys, a fold of insertions is plain concatenation. -/
theorem foldl_prefInsert_eq_append :
    ∀ (l m : List (String × YamlValue)), ((m ++ l).map Prod.fst).Nodup →
      l.foldl (fun acc p => prefInsert acc p.1 p.2) m = m ++ l
  | [], m, _ => by simp
  | p :: l, m, h => by
    have h' := h
    rw [List.map_append] at h'
    obtain ⟨_, _, hd⟩ := List.nodup_append.mp h'
    have hins : prefInsert m p.1 p.2 = m ++ [p] := by
      unfold prefInsert
      rw [if_neg]
      intro hany
      obtain ⟨q, hq, hb⟩ := List.any_eq_true.mp hany
      exact hd (List.mem_map_of_mem Prod.fst hq)
        (by rw [List.map_cons]
            exact (beq_iff_eq.mp hb) ▸ List.mem_cons_self _ _)
    rw [List.foldl_cons, hins, foldl_prefInsert_eq_append l (m ++ [p])
      (by simpa [List.append_assoc] using h)]
    simp

/-- `find?` only depends on the predicate's values on the list. -/
theorem find?_congr_pred {p q : α → Bool} :
    ∀ l : List α, (∀ x ∈ l, p x = q x) → l.find? p = l.find? q
  | [], _ => rfl
  | x :: l, h => by
    have hx := h x (List.mem_cons_self x l)
    by_cases hp : p x = true
    · rw [find?_cons_pos p x l hp, find?_cons_pos q x l (hx ▸ hp)]
    · have hpf : p x = false := by rwa [Bool.not_eq_true] at hp
      rw [find?_cons_neg p x l hpf, find?_cons_neg q x l (hx ▸ hpf),
        find?_congr_pred l (fun y hy => h y (List.mem_cons_of_mem x hy))]

/-! ### The validator -/

theorem refWarnStep_eq (cn un : List String) (ws : List Warning)
    (c : NamedContext) :
    refWarnStep cn un ws c = ws ++ contextWarnings cn un c := by
  simp only [refWarnStep, contextWarnings]
  split <;> split <;> simp

theorem foldl_refWarnStep :
    ∀ (contexts : List NamedContext) (cn un : List String)
      (ws : List Warning),
      contexts.foldl (refWarnStep cn un) ws =
        ws ++ (contexts.map (contextWarnings cn un)).flatten
  | [], _, _, ws => by simp
  | c :: contexts, cn, un, ws => by
    rw [List.foldl_cons, refWarnStep_eq,
      foldl_refWarnStep contexts cn un (ws ++ contextWarnings cn un c)]
    simp

/-- The only error validate_config can produce is the current-context one. -/
theorem validate_config_error_shape (cfg : KubeConfig) (e : MergeFailure)
    (h : validate_config cfg = .error e) :
    e = .current_context_not_found cfg.current_context := by
  unfold validate_config at h
  by_cases h1 : currentContextMissing cfg = true
  · rw [if_pos h1] at h
    injection h with h'
    exact h'.symm
  · rw [if_neg h1] at h
    exact absurd h (by simp)

/-- Decoding the fatal check: it fires exactly when current-context is
non-empty, contexts are present, and none of them carries that name. -/
theorem currentContextMissing_eq_true_iff (cfg : KubeConfig) :
    currentContextMissing cfg = true ↔
      (cfg.current_context ≠ "" ∧ ∃ ctxs, cfg.contexts = some ctxs ∧
        ∀ c ∈ ctxs, c.name ≠ cfg.current_context) := by
  unfold currentContextMissing
  by_cases hcc : cfg.current_context = ""
  · rw [if_neg (by simp [hcc])]
    simp [hcc]
  · rw [if_pos (by simpa using hcc)]
    cases hctx : cfg.contexts with
    | none => simp [hcc]
    | some ctxs => simp [hcc]

/-- An empty accumulator is emitted as an absent collection, a non-empty
one as itself; never a present-but-empty one. -/
theorem ite_isEmpty_ne_some_nil (l : List α) :
    (if l.isEmpty then none else some l) ≠ some ([] : List α) := by
  by_cases h : l.isEmpty = true
  · simp [h]
  · rw [if_neg h]
    intro hc
    rw [Option.some.injEq] at hc
    rw [hc] at h
    exact h rfl

/-! ### The claims -/

/-- Claim C1: for every ordered input and every entity category, looking up
any name in the merged output gives exactly the first record carrying that
name across the whole concatenated input, unchanged (the whole record,
passthrough fields included); and every merged record is the first input
occurrence of its name.  Later occurrences never overwrite. -/
theorem first_occurrence_wins_merge (files : List (Option KubeConfig))
    (merged : KubeConfig) (h : merge_kubeconfigs files = .ok merged) :
    (∀ n : String,
      (findByName NamedCluster.name (merged.clusters.getD []) n =
        findByName NamedCluster.name (inputClusters files) n) ∧
      (findByName NamedContext.name (merged.contexts.getD []) n =
        findByName NamedContext.name (inputContexts files) n) ∧
      (findByName NamedUser.name (merged.users.getD []) n =
        findByName NamedUser.name (inputUsers files) n)) ∧
    (∀ c ∈ merged.clusters.getD [],
      findByName NamedCluster.name (inputClusters files) c.name = some c) ∧
    (∀ c ∈ merged.contexts.getD [],
      findByName NamedContext.name (inputContexts files) c.name = some c) ∧
    (∀ c ∈ merged.users.getD [],
      findByName NamedUser.name (inputUsers files) c.name = some c) := by
  obtain ⟨-, -, rfl⟩ := (merge_ok_iff files merged).mp h
  have hcl : (buildMerged (finalState files)).clusters.getD [] =
      dedupAcc NamedCluster.name [] (inputClusters files) := by
    rw [buildMerged_clusters_getD]
    unfold finalState
    rw [foldl_mergeStep_clusters files initState,
      show initState.all_clusters = ([] : List NamedCluster) from rfl]
  have hcx : (buildMerged (finalState files)).contexts.getD [] =
      dedupAcc NamedContext.name [] (inputContexts files) := by
    rw [buildMerged_contexts_getD]
    unfold finalState
    rw [foldl_mergeStep_contexts files initState,
      show initState.all_contexts = ([] : List NamedContext) from rfl]
  have hcu : (buildMerged (finalState files)).users.getD [] =
      dedupAcc NamedUser.name [] (inputUsers files) := by
    rw [buildMerged_users_getD]
    unfold finalState
    rw [foldl_mergeStep_users files initState,
      show initState.all_users = ([] : List NamedUser) from rfl]
  refine ⟨fun n => ⟨?_, ?_, ?_⟩, ?_, ?_, ?_⟩
  · rw [hcl, findByName_dedupAcc]
    rw [show findByName NamedCluster.name [] n = none from rfl, Option.none_or]
  · rw [hcx, findByName_dedupAcc]
    rw [show findByName NamedContext.name [] n = none from rfl, Option.none_or]
  · rw [hcu, findByName_dedupAcc]
    rw [show findByName NamedUser.name [] n = none from rfl, Option.none_or]
  · intro c hc
    rw [hcl] at hc
    have hnd := nodup_dedupAcc NamedCluster.name (inputClusters files) []
      (by simp)
    have hfind := findByName_of_mem NamedCluster.name _ c hnd hc
    rw [findByName_dedupAcc] at hfind
    rw [show findByName NamedCluster.name [] c.name = none from rfl,
      Option.none_or] at hfind
    exact hfind
  · intro c hc
    rw [hcx] at hc
    have hnd := nodup_dedupAcc NamedContext.name (inputContexts files) []
      (by simp)
    have hfind := findByName_of_mem NamedContext.name _ c hnd hc
    rw [findByName_dedupAcc] at hfind
    rw [show findByName NamedContext.name [] c.name = none from rfl,
      Option.none_or] at hfind
    exact hfind
  · intro c hc
    rw [hcu] at hc
    have hnd := nodup_dedupAcc NamedUser.name (inputUsers files) []
      (by simp)
    have hfind := findByName_of_mem NamedUser.name _ c hnd hc
    rw [findByName_dedupAcc] at hfind
    rw [show findByName NamedUser.name [] c.name = none from rfl,
      Option.none_or] at hfind
    exact hfind

/-- Witness for C1 at the first-wins scenario: document A defines cluster x
with passthrough F=1, a later document B defines cluster x with F=2; the
merged output holds exactly A's record for x, F=1 included. -/
theorem first_occurrence_wins_merge_witness :
    merge_kubeconfigs files1 = .ok merged1 ∧
    (findByName NamedCluster.name (merged1.clusters.getD []) ("x") =
      findByName NamedCluster.name (inputClusters files1) ("x")) ∧
    findByName NamedCluster.name (merged1.clusters.getD []) ("x") =
      some ⟨"x", mkCluster ("s1") [("F", YamlValue.int 1)]⟩ ∧
    (inputClusters files1).map NamedCluster.name = ["x", "x"] := by
  refine ⟨by decide, ?_, by decide, by decide⟩
  exact ((first_occurrence_wins_merge files1 merged1 (by decide)).1 ("x")).1

/-- Claim C5 (confirmed): in any successfully merged document, entity
names are unique within each category. -/
theorem merged_entity_names_unique (files : List (Option KubeConfig))
    (merged : KubeConfig) (h : merge_kubeconfigs files = .ok merged) :
    ((merged.clusters.getD []).map NamedCluster.name).Nodup ∧
    ((merged.contexts.getD []).map NamedContext.name).Nodup ∧
    ((merged.users.getD []).map NamedUser.name).Nodup := by
  obtain ⟨-, -, rfl⟩ := (merge_ok_iff files merged).mp h
  refine ⟨?_, ?_, ?_⟩
  · rw [buildMerged_clusters_getD]
    unfold finalState
    rw [foldl_mergeStep_clusters files initState,
      show initState.all_clusters = ([] : List NamedCluster) from rfl]
    exact nodup_dedupAcc NamedCluster.name (inputClusters files) [] (by simp)
  · rw [buildMerged_contexts_getD]
    unfold finalState
    rw [foldl_mergeStep_contexts files initState,
      show initState.all_contexts = ([] : List NamedContext) from rfl]
    exact nodup_dedupAcc NamedContext.name (inputContexts files) [] (by simp)
  · rw [buildMerged_users_getD]
    unfold finalState
    rw [foldl_mergeStep_users files initState,
      show initState.all_users = ([] : List NamedUser) from rfl]
    exact nodup_dedupAcc NamedUser.name (inputUsers files) [] (by simp)

/-- Witness for C5 at a document with duplicate names inside one document:
the merged names are unique although the input names were not. -/
theorem merged_entity_names_unique_witness :
    (merge_kubeconfigs files5 = .ok merged5 ∧
      ¬((inputClusters files5).map NamedCluster.name).Nodup) ∧
    ((merged5.clusters.getD []).map NamedCluster.name).Nodup ∧
    ((merged5.contexts.getD []).map NamedContext.name).Nodup ∧
    ((merged5.users.getD []).map NamedUser.name).Nodup :=
  ⟨by decide, merged_entity_names_unique files5 merged5 (by decide)⟩

/-- Claim C6 (confirmed): the merged current-context is the current-context
of the first parsed document whose current-context is non-empty, and empty
when there is no such document; documents with an empty current-context
are passed over. -/
theorem current_context_first_nonempty_wins
    (files : List (Option KubeConfig)) (merged : KubeConfig)
    (h : merge_kubeconfigs files = .ok merged) :
    merged.current_context =
      ((inputCCs files).find? (fun s => s != "")).getD "" := by
  obtain ⟨-, -, rfl⟩ := (merge_ok_iff files merged).mp h
  show (finalState files).current_context = _
  unfold finalState
  rw [foldl_mergeStep_current_context files initState,
    if_pos (show (initState.current_context == "") = true from rfl)]

/-- Witness for C6: document A has an empty current-context, the later
document B carries ctx1; the merged current-context is ctx1. -/
theorem current_context_first_nonempty_wins_witness :
    merge_kubeconfigs files6 = .ok merged6 ∧
    merged6.current_context =
      ((inputCCs files6).find? (fun s => s != "")).getD "" ∧
    merged6.current_context = "ctx1" :=
  ⟨by decide,
   current_context_first_nonempty_wins files6 merged6 (by decide),
   by decide⟩

/-- Claim C10 (confirmed): a successful merge never emits a
present-but-empty collection; each of the three collections is either
absent or non-empty. -/
theorem collections_absent_or_nonempty (files : List (Option KubeConfig))
    (merged : KubeConfig) (h : merge_kubeconfigs files = .ok merged) :
    merged.clusters ≠ some [] ∧ merged.contexts ≠ some [] ∧
      merged.users ≠ some [] := by
  obtain ⟨-, -, rfl⟩ := (merge_ok_iff files merged).mp h
  exact ⟨ite_isEmpty_ne_some_nil _, ite_isEmpty_ne_some_nil _,
    ite_isEmpty_ne_some_nil _⟩

/-- Witness for C10 at a one-user document: the merged clusters and
contexts are absent, the users collection is non-empty. -/
theorem collections_absent_or_nonempty_witness :
    merge_kubeconfigs files10 = .ok merged10 ∧
    merged10.clusters ≠ some [] ∧ merged10.contexts ≠ some [] ∧
      merged10.users ≠ some [] :=
  ⟨by decide, collections_absent_or_nonempty files10 merged10 (by decide)⟩

/-- Counterexample to C2 as stated: a single document that contributes a
non-empty current-context and a preference key, but no entity, still makes
merge fail with the MergeError ("No valid kubeconfig files were
processed"), because only added entities count as a processed file. -/
theorem mergeError_despite_contributions :
    docP2.current_context = "c" ∧ docP2.preferences ≠ [] ∧
    merge_kubeconfigs [some docP2] = .error .no_valid_files := by
  refine ⟨by decide, by decide, by decide⟩

/-- Claim C2 as amended: merge fails with the MergeError exactly when not
a single entity occurs in any parsed document; current-context values and
preference keys do not count as contributions, and when some entity is
contributed merge never fails with this error (though it may still fail
validation). -/
theorem mergeError_iff_no_entity_contributed
    (files : List (Option KubeConfig)) :
    merge_kubeconfigs files = .error .no_valid_files ↔
      (inputClusters files = [] ∧ inputContexts files = [] ∧
        inputUsers files = []) := by
  rw [← finalState_processed_eq_zero_iff]
  simp only [merge_kubeconfigs]
  by_cases h0 : (finalState files).processed_files = 0
  · rw [if_pos (by simpa using h0)]
    simp [h0]
  · rw [if_neg (by simpa using h0)]
    cases hv : validate_config (buildMerged (finalState files)) with
    | error e =>
      have he := validate_config_error_shape _ e hv
      subst he
      simp [h0]
    | ok ws =>
      simp [h0]

/-- Counterexample to C3 as stated: this document is a real merge output,
its current-context is the non-empty name ghost, no merged context carries
that name (the contexts collection is absent altogether), and yet
validation succeeds instead of raising the ValidationError. -/
theorem validate_ok_despite_unresolved_current_context :
    merge_kubeconfigs [some ghostDoc] = .ok ghostDoc ∧
    ghostDoc.current_context = "ghost" ∧
    (∀ c ∈ ghostDoc.contexts.getD [], c.name ≠ "ghost") ∧
    validate_config ghostDoc = .ok [] := by
  refine ⟨by decide, by decide, by decide, by decide⟩

/-- Claim C3 as amended: validate fails (and then with the
current-context error) if and only if the current-context is non-empty,
the contexts collection is present, and no context in it carries that
name.  When the contexts collection is absent, validate succeeds even
with a non-empty, unmatched current-context. -/
theorem validationError_iff_unmatched_in_present_contexts
    (cfg : KubeConfig) :
    (∃ e, validate_config cfg = .error e) ↔
      (cfg.current_context ≠ "" ∧ ∃ ctxs, cfg.contexts = some ctxs ∧
        ∀ c ∈ ctxs, c.name ≠ cfg.current_context) := by
  rw [← currentContextMissing_eq_true_iff]
  unfold validate_config
  by_cases h : currentContextMissing cfg = true
  · rw [if_pos h]
    simp [h]
  · rw [if_neg h]
    simp [h]

/-- Claim C4 (confirmed): merged preferences are the key-by-key union with
right-biased overwrite; for every key, the merged value is the value of
the last parsed document (in input order) whose preferences bind that key.
The uniqueness hypotheses record that each document's preferences is a
HashMap, whose keys cannot repeat. -/
theorem preferences_last_document_wins (files : List (Option KubeConfig))
    (merged : KubeConfig) (h : merge_kubeconfigs files = .ok merged)
    (hnd : ∀ d ∈ parsedDocs files, (d.preferences.map Prod.fst).Nodup)
    (k : String) :
    prefLookup merged.preferences k = lastDocPref (parsedDocs files) k := by
  obtain ⟨-, -, rfl⟩ := (merge_ok_iff files merged).mp h
  show prefLookup (finalState files).preferences k = _
  unfold finalState
  rw [foldl_mergeStep_preferences files initState,
    show initState.preferences = ([] : List (String × YamlValue)) from rfl,
    prefLookup_foldl_docPrefStep,
    show prefLookup [] k = none from rfl, Option.or_none]
  unfold docsLastPref lastDocPref
  have hpred : ∀ d ∈ (parsedDocs files).reverse,
      (fun d => (lookupLast d.preferences k).isSome) d =
        (fun d => (prefLookup d.preferences k).isSome) d := by
    intro d hd
    show (lookupLast d.preferences k).isSome =
      (prefLookup d.preferences k).isSome
    rw [lookupLast_eq_prefLookup d.preferences
      (hnd d (List.mem_reverse.mp hd)) k]
  rw [find?_congr_pred (parsedDocs files).reverse hpred]
  cases hf : (parsedDocs files).reverse.find?
      (fun d => (prefLookup d.preferences k).isSome) with
  | none => rfl
  | some d =>
    rw [Option.some_bind, Option.some_bind]
    exact lookupLast_eq_prefLookup d.preferences
      (hnd d (List.mem_reverse.mp (List.mem_of_find?_eq_some hf))) k

/-- Witness for C4: document A binds preference k to 1, the later document
B binds k to 2; the merged preferences bind k to 2 (last-wins). -/
theorem preferences_last_document_wins_witness :
    merge_kubeconfigs files4 = .ok merged4 ∧
    prefLookup merged4.preferences ("k") = some (YamlValue.int 2) ∧
    lastDocPref (parsedDocs files4) ("k") = some (YamlValue.int 2) := by
  refine ⟨by decide, ?_, by decide⟩
  rw [preferences_last_document_wins files4 merged4 (by decide) (by decide)
    ("k")]
  decide

/-- Claim C7 (confirmed): whenever the fatal current-context check does not
fire, validation succeeds — dangling references are never fatal — and the
returned warning list contains, for every merged context, a warning naming
its dangling cluster reference and, independently, one naming its dangling
user reference. -/
theorem dangling_references_warn_not_fatal (cfg : KubeConfig)
    (h : currentContextMissing cfg = false) :
    validate_config cfg = .ok (refWarnings cfg) ∧
    ∀ c ∈ cfg.contexts.getD [],
      (((cfg.clusters.getD []).map NamedCluster.name).contains
          c.context.cluster = false →
        Warning.missing_cluster c.name c.context.cluster ∈ refWarnings cfg) ∧
      (((cfg.users.getD []).map NamedUser.name).contains
          c.context.user = false →
        Warning.missing_user c.name c.context.user ∈ refWarnings cfg) := by
  constructor
  · unfold validate_config
    rw [if_neg (by simp [h])]
  · intro c hc
    cases hctx : cfg.contexts with
    | none =>
      rw [hctx] at hc
      simp at hc
    | some ctxs =>
      rw [hctx] at hc
      simp only [Option.getD_some] at hc
      have hrw : refWarnings cfg = (ctxs.map (contextWarnings
          ((cfg.clusters.getD []).map NamedCluster.name)
          ((cfg.users.getD []).map NamedUser.name))).flatten := by
        unfold refWarnings
        rw [hctx]
        simp [foldl_refWarnStep]
      constructor
      · intro hdc
        rw [hrw]
        refine List.mem_flatten.mpr
          ⟨contextWarnings ((cfg.clusters.getD []).map NamedCluster.name)
            ((cfg.users.getD []).map NamedUser.name) c,
           List.mem_map_of_mem _ hc, ?_⟩
        unfold contextWarnings
        rw [if_pos (show (!(((cfg.clusters.getD []).map
            NamedCluster.name).contains c.context.cluster)) = true by
          rw [hdc]
          rfl)]
        exact List.mem_append_left _ (List.mem_cons_self _ _)
      · intro hdu
        rw [hrw]
        refine List.mem_flatten.mpr
          ⟨contextWarnings ((cfg.clusters.getD []).map NamedCluster.name)
            ((cfg.users.getD []).map NamedUser.name) c,
           List.mem_map_of_mem _ hc, ?_⟩
        unfold contextWarnings
        refine List.mem_append_right _ ?_
        rw [if_pos (show (!(((cfg.users.getD []).map
            NamedUser.name).contains c.context.user)) = true by
          rw [hdu]
          rfl)]
        exact List.mem_cons_self _ _

/-- Witness for C7: one merged context references the present cluster c1
and the missing user missing-user; validation succeeds and returns exactly
one warning, which names missing-user. -/
theorem dangling_references_warn_not_fatal_witness :
    validate_config cfg7 = .ok (refWarnings cfg7) ∧
    Warning.missing_user (ctx7.name) (ctx7.context.user) ∈ refWarnings cfg7 ∧
    refWarnings cfg7 = [Warning.missing_user ("ctx") ("missing-user")] := by
  have h := dangling_references_warn_not_fatal cfg7 (by decide)
  exact ⟨h.1, (h.2 ctx7 (by decide)).2 (by decide), by decide⟩

/-- Counterexample to C8 as stated: merging blanks plus the single
document exD8, whose apiVersion is v2, does not return exD8 unchanged —
the output's apiVersion is the canonical v1, not exD8's v2. -/
theorem merge_rewrites_api_version_metadata :
    merge_kubeconfigs [some exD8] = .ok exD8merged ∧
    exD8merged.api_version = "v1" ∧ exD8.api_version = "v2" ∧
    exD8merged.api_version ≠ exD8.api_version := by
  refine ⟨by decide, by decide, by decide, by decide⟩

/-- Claim C8 as amended: merging blanks plus exactly one document D that
contributes at least one entity, has no present-but-empty collection, no
duplicate names within a category, unique preference keys, and whose
non-empty current-context (when its contexts are present) names one of its
own contexts, returns D's clusters, contexts, users, current-context and
preferences unchanged — with the apiVersion and kind fields set to the
canonical values v1 and Config rather than kept from D. -/
theorem identity_law_up_to_canonical_metadata
    (l1 l2 : List (Option KubeConfig)) (d : KubeConfig)
    (hb1 : ∀ f ∈ l1, f = none) (hb2 : ∀ f ∈ l2, f = none)
    (hne : ¬(d.clusters.getD [] = [] ∧ d.contexts.getD [] = [] ∧
      d.users.getD [] = []))
    (hce : d.clusters ≠ some []) (hxe : d.contexts ≠ some [])
    (hue : d.users ≠ some [])
    (hcn : ((d.clusters.getD []).map NamedCluster.name).Nodup)
    (hxn : ((d.contexts.getD []).map NamedContext.name).Nodup)
    (hun : ((d.users.getD []).map NamedUser.name).Nodup)
    (hpn : (d.preferences.map Prod.fst).Nodup)
    (hcc : d.current_context ≠ "" → d.contexts = none ∨
      ∃ c ∈ d.contexts.getD [], c.name = d.current_context) :
    merge_kubeconfigs (l1 ++ some d :: l2) =
      .ok { d with api_version := "v1", kind := "Config" } := by
  have hst : finalState (l1 ++ some d :: l2) = mergeStep initState (some d) := by
    unfold finalState
    rw [List.foldl_append, foldl_mergeStep_blanks l1 initState hb1,
      List.foldl_cons, foldl_mergeStep_blanks l2 _ hb2]
  have hc1 : (mergeStep initState (some d)).all_clusters =
      d.clusters.getD [] := by
    rw [mergeStep_some_all_clusters,
      show initState.all_clusters = ([] : List NamedCluster) from rfl]
    have := dedupAcc_eq_append NamedCluster.name (d.clusters.getD []) []
      (by simpa using hcn)
    simpa using this
  have hx1 : (mergeStep initState (some d)).all_contexts =
      d.contexts.getD [] := by
    rw [mergeStep_some_all_contexts,
      show initState.all_contexts = ([] : List NamedContext) from rfl]
    have := dedupAcc_eq_append NamedContext.name (d.contexts.getD []) []
      (by simpa using hxn)
    simpa using this
  have hu1 : (mergeStep initState (some d)).all_users =
      d.users.getD [] := by
    rw [mergeStep_some_all_users,
      show initState.all_users = ([] : List NamedUser) from rfl]
    have := dedupAcc_eq_append NamedUser.name (d.users.getD []) []
      (by simpa using hun)
    simpa using this
  have hcc1 : (mergeStep initState (some d)).current_context =
      d.current_context := by
    by_cases hd : d.current_context = ""
    · simp [mergeStep, initState, hd]
    · simp [mergeStep, initState, hd]
  have hp1 : (mergeStep initState (some d)).preferences = d.preferences := by
    show docPrefStep initState.preferences d = d.preferences
    unfold docPrefStep
    have := foldl_prefInsert_eq_append d.preferences [] (by simpa using hpn)
    simpa using this
  have hproc : (mergeStep initState (some d)).processed_files = 1 := by
    have hpos := merge_config_items_count_pos d hne
    show (if (merge_config_items d [] [] []).2 > 0 then 0 + 1 else 0) = 1
    rw [if_pos hpos]
  have hbuild : buildMerged (mergeStep initState (some d)) =
      { d with api_version := "v1", kind := "Config" } := by
    unfold buildMerged
    have hcl : (if (mergeStep initState (some d)).all_clusters.isEmpty then
        none else some (mergeStep initState (some d)).all_clusters) =
        d.clusters := by
      rw [hc1]
      cases hdc : d.clusters with
      | none => simp
      | some ls =>
        have hne' : ls ≠ [] := fun hl => hce (by rw [hdc, hl])
        simp [hne']
    have hxl : (if (mergeStep initState (some d)).all_contexts.isEmpty then
        none else some (mergeStep initState (some d)).all_contexts) =
        d.contexts := by
      rw [hx1]
      cases hdx : d.contexts with
      | none => simp
      | some ls =>
        have hne' : ls ≠ [] := fun hl => hxe (by rw [hdx, hl])
        simp [hne']
    have hul : (if (mergeStep initState (some d)).all_users.isEmpty then
        none else some (mergeStep initState (some d)).all_users) =
        d.users := by
      rw [hu1]
      cases hdu : d.users with
      | none => simp
      | some ls =>
        have hne' : ls ≠ [] := fun hl => hue (by rw [hdu, hl])
        simp [hne']
    rw [hcl, hxl, hul, hcc1, hp1]
  have hmiss : currentContextMissing
      { d with api_version := "v1", kind := "Config" } = false := by
    unfold currentContextMissing
    by_cases hd : d.current_context = ""
    · rw [if_neg (by simp [hd])]
    · rw [if_pos (by simpa using hd)]
      show (match d.contexts with
        | some contexts =>
          !(contexts.any (fun c => c.name == d.current_context))
        | none => false) = false
      rcases hcc hd with hnone | ⟨c, hcm, hname⟩
      · rw [hnone]
      · cases hdx : d.contexts with
        | none => rfl
        | some ctxs =>
          rw [hdx] at hcm
          simp only [Option.getD_some] at hcm
          have hany : ctxs.any (fun x => x.name == d.current_context) = true :=
            List.any_eq_true.mpr ⟨c, hcm, by simpa using hname⟩
          show (!(ctxs.any (fun c => c.name == d.current_context))) = false
          rw [hany]
          rfl
  refine (merge_ok_iff _ _).mpr ⟨?_, ?_, ?_⟩
  · rw [hst, hproc]
    exact Nat.one_ne_zero
  · rw [hst, hbuild]
    exact hmiss
  · rw [hst, hbuild]

/-- Witness for C8: blanks around the fully populated document docD8;
merge returns docD8's content with canonical metadata. -/
theorem identity_law_up_to_canonical_metadata_witness :
    merge_kubeconfigs files8 =
      .ok { docD8 with api_version := "v1", kind := "Config" } :=
  identity_law_up_to_canonical_metadata [none] [none] docD8
    (by decide) (by decide) (by decide) (by decide) (by decide) (by decide)
    (by decide) (by decide) (by decide) (by decide) (by decide)

end Kubemerge
